import Mathlib

/-!
# Verification of the MingNote project-tree core

A shallow embedding of the tree-building, selection, mutation and autosave
logic of the MingNote note-taking application
(`src/features/tree/Tree.tsx`, `src/features/search/Search.tsx`,
`src/features/editor/Editor.tsx`, `src/features/editor/CharacterEditor.tsx`),
together with theorems settling the specification claims about it.

Modelling conventions:
* JavaScript record objects used as string-keyed buckets are modelled by
  `List.filter` over the input list; JS object buckets preserve insertion
  order, which `filter` reproduces.
* The unbounded mutual recursion of `makeFolderNode` is modelled with an
  explicit `fuel` parameter; `none` models a run that exhausts every finite
  stack (non-termination of the source function).
* `String.prototype.localeCompare` is modelled as code-point lexicographic
  comparison (`strCmp`), the case-sensitive collation the spec describes.
* `Array.prototype.sort` (stable since ES2019) with a consistent comparator
  is modelled by Mathlib's stable `List.insertionSort` on the relation
  "comparator result is not greater".
* Stateful React handlers are modelled as pure state-transition functions
  returning the new state, the list of persistence-engine calls issued (in
  call order) and the list of user-visible alert messages.
-/

namespace MingNote

/-- Folder row, from `type Folder = { id: string; name: string; parentId: string | null }`. -/
structure Folder where
  id : String
  name : String
  parentId : Option String
deriving DecidableEq, Repr

/-- Document row, from `type Doc = { id: string; title: string; folderId: string | null }`. -/
structure Doc where
  id : String
  title : String
  folderId : Option String
deriving DecidableEq, Repr

/-- Character row, from `type Character = { id: string; name: string; folderId: string | null }`. -/
structure Character where
  id : String
  name : String
  folderId : Option String
deriving DecidableEq, Repr

/-- `const ROOT_KEY = "__ROOT__"` (Tree.tsx). -/
def ROOT_KEY : String := "__ROOT__"

/-- `const keyOf = (id: string | null): string => id ?? ROOT_KEY` (Tree.tsx). -/
def keyOf (id : Option String) : String := id.getD ROOT_KEY

/-- The rendered tree node union, from
`type TreeNode = { kind: "folder"; ...; children: TreeNode[] } | { kind: "doc"; ... } | { kind: "character"; ... }`. -/
inductive TreeNode where
  | folder (id name : String) (children : List TreeNode)
  | doc (id title : String)
  | character (id name : String)

/-- The `kind` discriminant tag of a `TreeNode`. -/
inductive NodeKind where
  | folder
  | doc
  | character
deriving DecidableEq, Repr

/-- Reads the `kind` tag of a node. -/
def nodeKind : TreeNode → NodeKind
  | .folder .. => .folder
  | .doc .. => .doc
  | .character .. => .character

/-- The display name used by the sort comparator:
`a.kind === "folder" ? a.name : a.kind === "doc" ? a.title : a.name`. -/
def nodeName : TreeNode → String
  | .folder _ n _ => n
  | .doc _ t => t
  | .character _ n => n

/-- `childrenByParent[k]`: the folders bucketed under parent key `k`, in input
order (`for (const f of folders) (childrenByParent[keyOf(f.parentId)] ||= []).push(f)`). -/
def childrenByParent (folders : List Folder) (k : String) : List Folder :=
  folders.filter fun f => keyOf f.parentId == k

/-- `docsByFolder[k]`: the documents bucketed under folder key `k`, in input order. -/
def docsByFolder (docs : List Doc) (k : String) : List Doc :=
  docs.filter fun d => keyOf d.folderId == k

/-- `charsByFolder[k]`: the characters bucketed under folder key `k`, in input order. -/
def charsByFolder (chars : List Character) (k : String) : List Character :=
  chars.filter fun c => keyOf c.folderId == k

/-- The document leaves emitted for folder key `k`:
`(docsByFolder[k] || []).map((d) => ({ kind: "doc", id: d.id, title: d.title }))`. -/
def docLeaves (docs : List Doc) (k : String) : List TreeNode :=
  (docsByFolder docs k).map fun d => .doc d.id d.title

/-- The character leaves emitted for folder key `k`:
`(charsByFolder[k] || []).map((c) => ({ kind: "character", id: c.id, name: c.name }))`. -/
def charLeaves (chars : List Character) (k : String) : List TreeNode :=
  (charsByFolder chars k).map fun c => .character c.id c.name

/-- Collects a list of optional results: `some` of all values when every
entry is `some`, otherwise `none`. Models a `map` whose callback may diverge:
the mapped array exists only if every recursive call returns. -/
def optionList : List (Option α) → Option (List α)
  | [] => some []
  | none :: _ => none
  | some a :: rest =>
    match optionList rest with
    | none => none
    | some as => some (a :: as)

/-- `makeFolderNode` from `buildTree` (Tree.tsx lines 577-586), fuelled.
The source recursion
`children: [...(childrenByParent[f.id] || []).map(makeFolderNode), ...docs, ...chars]`
has no cycle guard; `fuel` bounds the recursion depth, and `none` models a
call that overflows every finite stack (non-termination). -/
def makeFolderNode (folders : List Folder) (docs : List Doc) (chars : List Character) :
    Nat → Folder → Option TreeNode
  | 0, _ => none
  | fuel + 1, f =>
    match optionList ((childrenByParent folders f.id).map fun g =>
        makeFolderNode folders docs chars fuel g) with
    | none => none
    | some kids =>
      some (.folder f.id f.name (kids ++ docLeaves docs f.id ++ charLeaves chars f.id))

/-- Code-point lexicographic three-way comparison of character lists. -/
def strCmpAux : List Char → List Char → Ordering
  | [], [] => .eq
  | [], _ :: _ => .lt
  | _ :: _, [] => .gt
  | a :: as, b :: bs =>
    if a < b then .lt else if b < a then .gt else strCmpAux as bs

/-- Model of `an.localeCompare(bn)`: code-point lexicographic, case-sensitive
three-way comparison. -/
def strCmp (a b : String) : Ordering := strCmpAux a.toList b.toList

theorem strCmpAux_lt_iff : ∀ as bs : List Char, strCmpAux as bs = .lt ↔ List.Lex (· < ·) as bs
  | [], [] => by simp [strCmpAux]
  | [], b :: bs => iff_of_true rfl List.Lex.nil
  | a :: as, [] => by simp [strCmpAux]
  | a :: as, b :: bs => by
    by_cases h1 : a < b
    · exact iff_of_true (by simp [strCmpAux, h1]) (List.Lex.rel h1)
    · by_cases h2 : b < a
      · apply iff_of_false (by simp [strCmpAux, h1, h2])
        intro h
        cases h with
        | rel h => exact h1 h
        | cons h => exact absurd h2 (lt_irrefl _)
      · have hab : a = b := le_antisymm (not_lt.mp h2) (not_lt.mp h1)
        subst hab
        rw [show strCmpAux (a :: as) (a :: bs) = strCmpAux as bs by simp [strCmpAux, h1]]
        rw [strCmpAux_lt_iff as bs]
        constructor
        · exact List.Lex.cons
        · intro h
          cases h with
          | rel h => exact absurd h h1
          | cons h => exact h

theorem strCmpAux_gt_iff : ∀ as bs : List Char, strCmpAux as bs = .gt ↔ strCmpAux bs as = .lt
  | [], [] => by simp [strCmpAux]
  | [], _ :: _ => by simp [strCmpAux]
  | _ :: _, [] => by simp [strCmpAux]
  | a :: as, b :: bs => by
    by_cases h1 : a < b
    · have h2 : ¬ b < a := asymm h1
      simp [strCmpAux, h1, h2]
    · by_cases h2 : b < a
      · simp [strCmpAux, h1, h2]
      · have hab : a = b := le_antisymm (not_lt.mp h2) (not_lt.mp h1)
        subst hab
        simp only [strCmpAux, if_neg h1]
        exact strCmpAux_gt_iff as bs

/-- `strCmp` answers `lt` exactly on lexicographically smaller strings. -/
theorem strCmp_lt_iff (a b : String) : strCmp a b = .lt ↔ a < b := by
  rw [String.lt_iff_toList_lt]
  exact strCmpAux_lt_iff a.toList b.toList

/-- `strCmp` answers `gt` exactly on lexicographically larger strings. -/
theorem strCmp_gt_iff (a b : String) : strCmp a b = .gt ↔ b < a := by
  rw [strCmp, strCmpAux_gt_iff, String.lt_iff_toList_lt]
  exact strCmpAux_lt_iff b.toList a.toList

/-- Not answering `gt` is exactly the lexicographic `≤`. -/
theorem strCmp_ne_gt_iff (a b : String) : ¬ strCmp a b = .gt ↔ a ≤ b := by
  rw [strCmp_gt_iff, not_lt]

/-- The sort comparator of `sortNodes` (Tree.tsx lines 596-607):
folders first when kinds differ, otherwise (including the doc/character
cross-kind fall-through) compare display names. -/
def nodeCmp (a b : TreeNode) : Ordering :=
  if nodeKind a ≠ nodeKind b then
    if nodeKind a = .folder then .lt
    else if nodeKind b = .folder then .gt
    else strCmp (nodeName a) (nodeName b)
  else strCmp (nodeName a) (nodeName b)

/-- `a` may stay left of `b` under the comparator: its result is not `gt`. -/
def nodeLe (a b : TreeNode) : Prop := nodeCmp a b ≠ .gt

instance : DecidableRel nodeLe := fun _ _ => instDecidableNot

/-- `sortNodes` (Tree.tsx line 596): `nodes.slice().sort(comparator)`.
`Array.prototype.sort` is stable and the comparator is a total preorder, so
the result is the stable insertion sort under `nodeLe`. -/
def sortNodes (nodes : List TreeNode) : List TreeNode :=
  List.insertionSort nodeLe nodes

/-- Membership transfer through `sortNodes`, used for the recursion bound of
`sortDeep`. -/
theorem mem_of_mem_sortNodes {c : TreeNode} {l : List TreeNode} (h : c ∈ sortNodes l) :
    c ∈ l :=
  (List.perm_insertionSort nodeLe l).mem_iff.mp h

theorem sizeOf_lt_of_mem_sortNodes {c : TreeNode} {l : List TreeNode}
    (h : c ∈ sortNodes l) : sizeOf c < sizeOf l :=
  List.sizeOf_lt_of_mem (mem_of_mem_sortNodes h)

/-- `sortDeep` (Tree.tsx lines 609-610):
`n.kind === "folder" ? { ...n, children: sortNodes(n.children).map(sortDeep) } : n`. -/
def sortDeep (t : TreeNode) : TreeNode :=
  match t with
  | .folder i n children =>
    .folder i n ((sortNodes children).attach.map fun c => sortDeep c.1)
  | .doc i t => .doc i t
  | .character i n => .character i n
termination_by sizeOf t
decreasing_by
  rename_i i n children
  have h1 : sizeOf c.1 < sizeOf children := sizeOf_lt_of_mem_sortNodes c.2
  simp only [TreeNode.folder.sizeOf_spec]
  omega

/-- Unfolding equation for `sortDeep` on folders in terms of a plain `map`. -/
theorem sortDeep_folder (i n : String) (children : List TreeNode) :
    sortDeep (.folder i n children) =
      .folder i n ((sortNodes children).map sortDeep) := by
  simp only [sortDeep]
  congr 1
  exact List.attach_map_coe (sortNodes children) sortDeep

/-- `sortDeep` leaves document leaves unchanged. -/
theorem sortDeep_doc (i t : String) : sortDeep (.doc i t) = .doc i t := by
  simp only [sortDeep]

/-- `sortDeep` leaves character leaves unchanged. -/
theorem sortDeep_character (i n : String) :
    sortDeep (.character i n) = .character i n := by
  simp only [sortDeep]

/-- `buildTree` (Tree.tsx lines 567-613), fuelled: bucket the rows, build the
root folder nodes recursively, append root documents and characters, then
sort every sibling list. `none` models non-termination of the source. -/
def buildTreeFuel (fuel : Nat) (folders : List Folder) (docs : List Doc)
    (chars : List Character) : Option (List TreeNode) :=
  match optionList ((childrenByParent folders ROOT_KEY).map fun g =>
      makeFolderNode folders docs chars fuel g) with
  | none => none
  | some rootFolders =>
    let rootDocs := docLeaves docs ROOT_KEY
    let rootChars := charLeaves chars ROOT_KEY
    some ((sortNodes (rootFolders ++ rootDocs ++ rootChars)).map sortDeep)

/-! ### Selection state (claims C2) -/

/-- The selection slice of the shared valtio store: `state.currentDocId` and
`state.currentCharId`, both strings with `""` meaning "nothing selected". -/
structure Selection where
  currentDocId : String
  currentCharId : String
deriving DecidableEq, Repr

/-- `selectDoc` (Tree.tsx lines 86-89):
`state.currentDocId = id; state.currentCharId = ""`. -/
def selectDoc (id : String) (s : Selection) : Selection :=
  { s with currentDocId := id, currentCharId := "" }

/-- `selectChar` (Tree.tsx lines 90-93):
`state.currentCharId = id; state.currentDocId = ""`. -/
def selectChar (id : String) (s : Selection) : Selection :=
  { s with currentCharId := id, currentDocId := "" }

/-- The search-result click handler (Search.tsx line 20):
`onClick={() => state.currentDocId = r.id}` — it does not touch
`currentCharId`. -/
def searchSelect (id : String) (s : Selection) : Selection :=
  { s with currentDocId := id }

/-- The mutual-exclusion invariant: at most one of the two selection fields is
non-empty. -/
def selectionExclusive (s : Selection) : Prop :=
  s.currentDocId = "" ∨ s.currentCharId = ""

instance : ∀ s, Decidable (selectionExclusive s) := fun _ => instDecidableOr

/-! ### Editor autosave (claim C6) -/

/-- The autosave period used by both editors:
`window.setInterval(async () => {...}, 5000)`. -/
def AUTOSAVE_INTERVAL_MS : Nat := 5000

/-- An attribute row of a character profile (`Attribute` in the store). -/
structure Attr where
  key : String
  value : String
deriving DecidableEq, Repr

/-- The payload object both character save sites construct field by field. -/
structure CharPayload where
  age : String
  nationality : String
  sexuality : String
  height : String
  attributes : List Attr
  image : String
deriving DecidableEq, Repr

/-- A persistence call issued by an editor flush. -/
inductive SaveCall where
  | saveDoc (projectPath docId markdown : String)
  | saveCharacter (projectPath charId : String) (payload : CharPayload)
deriving DecidableEq, Repr

/-- The store slice Editor.tsx reads and writes: project path, active
document id, markdown buffer (`state.editor.md`) and the "last saved"
timestamp (`state.editor.lastSaved`). -/
structure DocEditorState where
  projectPath : String
  currentDocId : String
  md : String
  lastSaved : Nat
deriving DecidableEq, Repr

/-- One document autosave timer fire (Editor.tsx lines 14-18):
`if (!s.currentDocId) return; await saveDoc(s.projectPath, s.currentDocId, s.editor.md);
state.editor.lastSaved = Date.now();`.
Returns the new state and the engine calls issued. -/
def editorTick (now : Nat) (s : DocEditorState) : DocEditorState × List SaveCall :=
  if s.currentDocId = "" then (s, [])
  else ({ s with lastSaved := now }, [.saveDoc s.projectPath s.currentDocId s.md])

/-- The document `onBlur` handler (Editor.tsx lines 25-29): the same body as
a timer fire, run immediately when the textarea loses focus. -/
def editorBlur (now : Nat) (s : DocEditorState) : DocEditorState × List SaveCall :=
  if s.currentDocId = "" then (s, [])
  else ({ s with lastSaved := now }, [.saveDoc s.projectPath s.currentDocId s.md])

/-- The store slice CharacterEditor.tsx reads and writes. -/
structure CharEditorState where
  projectPath : String
  currentCharId : String
  age : String
  nationality : String
  sexuality : String
  height : String
  attributes : List Attr
  image : String
  lastSaved : Nat
deriving DecidableEq, Repr

/-- The payload assembled from the buffer at each character save site. -/
def charPayloadOf (s : CharEditorState) : CharPayload :=
  ⟨s.age, s.nationality, s.sexuality, s.height, s.attributes, s.image⟩

/-- One character autosave timer fire (CharacterEditor.tsx lines 90-105):
guard on `s.currentCharId`, build the full payload, `saveCharacter`, and on
success stamp `lastSaved`; the call is wrapped in `try {...} catch {}`, so
`ok = false` (a rejected save) leaves the state unchanged. -/
def charTick (ok : Bool) (now : Nat) (s : CharEditorState) :
    CharEditorState × List SaveCall :=
  if s.currentCharId = "" then (s, [])
  else
    ((if ok then { s with lastSaved := now } else s),
      [.saveCharacter s.projectPath s.currentCharId (charPayloadOf s)])

/-- The character `onBlur` handler (CharacterEditor.tsx lines 117-130):
guard, full-payload `saveCharacter`, stamp `lastSaved` (no catch). -/
def charBlur (now : Nat) (s : CharEditorState) : CharEditorState × List SaveCall :=
  if s.currentCharId = "" then (s, [])
  else ({ s with lastSaved := now },
    [.saveCharacter s.projectPath s.currentCharId (charPayloadOf s)])

/-! ### Tree mutation operations (claims C7, C8, C9) -/

/-- The state a `Tree` component instance owns or writes: the store's project
path, entity collections and selection fields, the local `expanded` record
(modelled as the set of folder ids currently mapped to `true`), and the
delete-confirmation dialog state (`confirmOpen`, `pendingFolderId`). -/
structure TreeState where
  projectPath : String
  folders : List Folder
  docs : List Doc
  characters : List Character
  currentDocId : String
  currentCharId : String
  expanded : List String
  confirmOpen : Bool
  pendingFolderId : Option String
deriving DecidableEq, Repr

/-- A persistence-engine call issued by a tree mutation, in issue order. -/
inductive EngineCall where
  | newFolder (projectPath name : String) (parentId : Option String)
  | newDoc (projectPath title : String) (folderId : Option String)
  | newCharacter (projectPath name : String) (folderId : Option String)
  | deleteFolderRecursive (projectPath folderId : String)
  | deleteDoc (projectPath docId : String)
  | deleteCharacter (projectPath charId : String)
  | listTree (projectPath : String)
deriving DecidableEq, Repr

/-- Result of a tree mutation: the new state, the engine calls made (in
order) and the `alert` messages shown to the user. -/
structure OpResult where
  state : TreeState
  calls : List EngineCall
  alerts : List String
deriving DecidableEq, Repr

/-- `promptName` (Tree.tsx lines 100-106). `input` is the raw
`window.prompt` result, `none` modelling Cancel:
`if (raw === null) return null; const trimmed = raw.trim(); if (!trimmed) return null; return trimmed;`. -/
def promptName (input : Option String) : Option String :=
  match input with
  | none => none
  | some raw =>
    let trimmed := raw.trim
    if trimmed = "" then none else some trimmed

/-- The `listTree` snapshot the refresh replaces the collections with. -/
structure TreeSnapshot where
  folders : List Folder
  docs : List Doc
  characters : List Character
deriving DecidableEq, Repr

/-- `refresh` (Tree.tsx lines 60-71): replace the entity collections with the
`listTree` snapshot. Callers invoke it only after their own project-path
guard, and its engine call is recorded by the caller. -/
def refresh (snap : TreeSnapshot) (st : TreeState) : TreeState :=
  { st with folders := snap.folders, docs := snap.docs, characters := snap.characters }

/-- `setExpanded((e) => ({ ...e, [id]: true }))`: mark one folder id
expanded. -/
def setExpandedTrue (id : String) (e : List String) : List String :=
  if id ∈ e then e else id :: e

/-- `createFolder` (Tree.tsx lines 108-115): project guard, name prompt
(abort on `none`), `newFolder` engine call, refresh, expand the parent.
Engine calls are assumed to resolve (the source has no catch here). -/
def createFolderOp (input : Option String) (snap : TreeSnapshot)
    (parentId : Option String) (st : TreeState) : OpResult :=
  if st.projectPath = "" then ⟨st, [], ["Open or create a project first."]⟩
  else
    match promptName input with
    | none => ⟨st, [], []⟩
    | some name =>
      let st1 := refresh snap st
      let st2 :=
        match parentId with
        | some pid => { st1 with expanded := setExpandedTrue pid st1.expanded }
        | none => st1
      ⟨st2, [.newFolder st.projectPath name parentId, .listTree st.projectPath], []⟩

/-- `createDoc` (Tree.tsx lines 117-125): project guard, title prompt (abort
on `none`), `newDoc` engine call returning `newId`, refresh, `selectDoc(id)`,
expand the parent folder. -/
def createDocOp (input : Option String) (newId : String) (snap : TreeSnapshot)
    (folderId : Option String) (st : TreeState) : OpResult :=
  if st.projectPath = "" then ⟨st, [], ["Open or create a project first."]⟩
  else
    match promptName input with
    | none => ⟨st, [], []⟩
    | some title =>
      let st1 := refresh snap st
      let st2 := { st1 with currentDocId := newId, currentCharId := "" }
      let st3 :=
        match folderId with
        | some fid => { st2 with expanded := setExpandedTrue fid st2.expanded }
        | none => st2
      ⟨st3, [.newDoc st.projectPath title folderId, .listTree st.projectPath], []⟩

/-- `createCharacterTab` (Tree.tsx lines 127-135): like `createDoc` with
`newCharacter` and `selectChar(id)`. -/
def createCharacterOp (input : Option String) (newId : String)
    (snap : TreeSnapshot) (folderId : Option String) (st : TreeState) : OpResult :=
  if st.projectPath = "" then ⟨st, [], ["Open or create a project first."]⟩
  else
    match promptName input with
    | none => ⟨st, [], []⟩
    | some name =>
      let st1 := refresh snap st
      let st2 := { st1 with currentCharId := newId, currentDocId := "" }
      let st3 :=
        match folderId with
        | some fid => { st2 with expanded := setExpandedTrue fid st2.expanded }
        | none => st2
      ⟨st3, [.newCharacter st.projectPath name folderId, .listTree st.projectPath], []⟩

/-- `requestDeleteFolder` (Tree.tsx lines 138-141): record the pending id and
open the confirmation dialog; no engine call. -/
def requestDeleteFolderOp (folderId : String) (st : TreeState) : OpResult :=
  ⟨{ st with pendingFolderId := some folderId, confirmOpen := true }, [], []⟩

/-- `actuallyDeleteFolder` (Tree.tsx lines 143-154): project guard, then
`deleteFolderRecursive`; on success clear both selection fields and refresh;
on engine rejection (`ok = false`) the catch leaves the state unchanged and
alerts. -/
def actuallyDeleteFolderOp (ok : Bool) (snap : TreeSnapshot) (folderId : String)
    (st : TreeState) : OpResult :=
  if st.projectPath = "" then ⟨st, [], ["Open or create a project first."]⟩
  else if ok then
    let st1 := { st with currentDocId := "", currentCharId := "" }
    ⟨refresh snap st1,
      [.deleteFolderRecursive st.projectPath folderId, .listTree st.projectPath], []⟩
  else ⟨st, [.deleteFolderRecursive st.projectPath folderId],
    ["Failed to delete folder. See console for details."]⟩

/-- The `ConfirmDialog` `onClose` handler (Tree.tsx lines 359-363):
`setConfirmOpen(false); if (confirmed && pendingFolderId) void actuallyDeleteFolder(pendingFolderId); setPendingFolderId(null);`. -/
def confirmCloseOp (confirmed ok : Bool) (snap : TreeSnapshot) (st : TreeState) :
    OpResult :=
  let st1 := { st with confirmOpen := false }
  match confirmed, st.pendingFolderId with
  | true, some fid =>
    let r := actuallyDeleteFolderOp ok snap fid st1
    ⟨{ r.state with pendingFolderId := none }, r.calls, r.alerts⟩
  | true, none => ⟨{ st1 with pendingFolderId := none }, [], []⟩
  | false, _ => ⟨{ st1 with pendingFolderId := none }, [], []⟩

/-- `handleDeleteDoc` (Tree.tsx lines 156-166): project guard, `deleteDoc`;
on success clear `currentDocId` only if it is the deleted id, then refresh;
on rejection the catch leaves the state unchanged and alerts. -/
def handleDeleteDocOp (ok : Bool) (snap : TreeSnapshot) (docId : String)
    (st : TreeState) : OpResult :=
  if st.projectPath = "" then ⟨st, [], ["Open or create a project first."]⟩
  else if ok then
    let st1 := if st.currentDocId = docId then { st with currentDocId := "" } else st
    ⟨refresh snap st1, [.deleteDoc st.projectPath docId, .listTree st.projectPath], []⟩
  else ⟨st, [.deleteDoc st.projectPath docId],
    ["Failed to delete document. See console for details."]⟩

/-- `handleDeleteCharacter` (Tree.tsx lines 168-178): like `handleDeleteDoc`
for characters. -/
def handleDeleteCharacterOp (ok : Bool) (snap : TreeSnapshot) (charId : String)
    (st : TreeState) : OpResult :=
  if st.projectPath = "" then ⟨st, [], ["Open or create a project first."]⟩
  else if ok then
    let st1 := if st.currentCharId = charId then { st with currentCharId := "" } else st
    ⟨refresh snap st1,
      [.deleteCharacter st.projectPath charId, .listTree st.projectPath], []⟩
  else ⟨st, [.deleteCharacter st.projectPath charId],
    ["Failed to delete character. See console for details."]⟩

/-! ### Identifier occurrence and reachability (claims C3, C10) -/

/-- All `(kind, id)` pairs occurring anywhere in a rendered node. -/
def nodeIds (t : TreeNode) : List (NodeKind × String) :=
  match t with
  | .folder i _ children =>
    (NodeKind.folder, i) :: (children.attach.map fun c => nodeIds c.1).flatten
  | .doc i _ => [(NodeKind.doc, i)]
  | .character i _ => [(NodeKind.character, i)]
termination_by sizeOf t
decreasing_by
  rename_i i n children
  have h1 : sizeOf c.1 < sizeOf children := List.sizeOf_lt_of_mem c.2
  simp only [TreeNode.folder.sizeOf_spec]
  omega

/-- All `(kind, id)` pairs occurring anywhere in a forest. -/
def forestIds (l : List TreeNode) : List (NodeKind × String) :=
  (l.map nodeIds).flatten

/-- The bucket keys the `buildTree` recursion consults: the synthetic root
key, and the id of any folder reached from an already-consulted key. -/
inductive ReachKey (fs : List Folder) : String → Prop where
  | root : ReachKey fs ROOT_KEY
  | step (f : Folder) : f ∈ fs → ReachKey fs (keyOf f.parentId) → ReachKey fs f.id

/-- A folder whose bucket key is the root key or the id of some input folder
(the spec's "parent found" condition, sentinel collisions included). -/
def folderKeyed (fs : List Folder) (f : Folder) : Prop :=
  keyOf f.parentId = ROOT_KEY ∨ ∃ g ∈ fs, keyOf f.parentId = g.id

/-- A document whose bucket key is the root key or the id of some input folder. -/
def docKeyed (fs : List Folder) (d : Doc) : Prop :=
  keyOf d.folderId = ROOT_KEY ∨ ∃ g ∈ fs, keyOf d.folderId = g.id

/-- A character whose bucket key is the root key or the id of some input folder. -/
def charKeyed (fs : List Folder) (c : Character) : Prop :=
  keyOf c.folderId = ROOT_KEY ∨ ∃ g ∈ fs, keyOf c.folderId = g.id

/-! ### Ordering of sibling lists (claim C1) -/

/-- Sort rank of a node kind: folders first, all other kinds after. -/
def nodeRank (t : TreeNode) : Nat := if nodeKind t = .folder then 0 else 1

theorem nodeRank_eq_zero_iff (t : TreeNode) : nodeRank t = 0 ↔ nodeKind t = .folder := by
  unfold nodeRank
  split <;> simp_all

/-- The comparator's left-stay relation is the lexicographic order on
(rank, display name). -/
theorem nodeLe_iff (a b : TreeNode) :
    nodeLe a b ↔
      nodeRank a < nodeRank b ∨ (nodeRank a = nodeRank b ∧ nodeName a ≤ nodeName b) := by
  unfold nodeLe nodeCmp nodeRank
  cases ha : nodeKind a <;> cases hb : nodeKind b <;>
    simp_all [strCmp_ne_gt_iff, strCmp_gt_iff, not_lt]

instance : IsTotal TreeNode nodeLe := by
  constructor
  intro a b
  rw [nodeLe_iff, nodeLe_iff]
  rcases Nat.lt_trichotomy (nodeRank a) (nodeRank b) with h | h | h
  · exact Or.inl (Or.inl h)
  · rcases le_total (nodeName a) (nodeName b) with hn | hn
    · exact Or.inl (Or.inr ⟨h, hn⟩)
    · exact Or.inr (Or.inr ⟨h.symm, hn⟩)
  · exact Or.inr (Or.inl h)

instance : IsTrans TreeNode nodeLe := by
  constructor
  intro a b c hab hbc
  rw [nodeLe_iff] at hab hbc ⊢
  rcases hab with h1 | ⟨h1, h1n⟩ <;> rcases hbc with h2 | ⟨h2, h2n⟩
  · exact Or.inl (h1.trans h2)
  · exact Or.inl (h2 ▸ h1)
  · exact Or.inl (h1 ▸ h2)
  · exact Or.inr ⟨h1.trans h2, le_trans h1n h2n⟩

/-- The ordering invariant between two siblings `a` left of `b`: a folder
never sits right of a non-folder, and same-kind siblings are in ascending
display-name order. -/
def sibProp (a b : TreeNode) : Prop :=
  (nodeKind b = .folder → nodeKind a = .folder) ∧
    (nodeKind a = nodeKind b → nodeName a ≤ nodeName b)

instance : ∀ a b, Decidable (sibProp a b) := fun _ _ => instDecidableAnd

theorem sibProp_of_nodeLe {a b : TreeNode} (h : nodeLe a b) : sibProp a b := by
  rw [nodeLe_iff] at h
  constructor
  · intro hb
    rcases h with h | ⟨h, _⟩
    · rw [← nodeRank_eq_zero_iff] at hb
      omega
    · rw [← nodeRank_eq_zero_iff] at hb ⊢
      omega
  · intro hk
    have : nodeRank a = nodeRank b := by unfold nodeRank; rw [hk]
    rcases h with h | ⟨_, hn⟩
    · omega
    · exact hn

/-- The output of `sortNodes` is pairwise comparator-ordered. -/
theorem sortNodes_sorted (l : List TreeNode) : List.Pairwise nodeLe (sortNodes l) :=
  List.sorted_insertionSort nodeLe l

theorem nodeKind_sortDeep (t : TreeNode) : nodeKind (sortDeep t) = nodeKind t := by
  cases t <;> simp [sortDeep_folder, sortDeep_doc, sortDeep_character, nodeKind]

theorem nodeName_sortDeep (t : TreeNode) : nodeName (sortDeep t) = nodeName t := by
  cases t <;> simp [sortDeep_folder, sortDeep_doc, sortDeep_character, nodeName]

theorem sibProp_sortDeep {a b : TreeNode} (h : sibProp a b) :
    sibProp (sortDeep a) (sortDeep b) := by
  unfold sibProp at h ⊢
  rw [nodeKind_sortDeep, nodeKind_sortDeep, nodeName_sortDeep, nodeName_sortDeep]
  exact h

/-- A node all of whose folder descendants have sibling lists satisfying the
ordering invariant. -/
inductive OrderedNode : TreeNode → Prop where
  | doc (i t : String) : OrderedNode (.doc i t)
  | character (i n : String) : OrderedNode (.character i n)
  | folder (i n : String) (children : List TreeNode)
      (hpair : List.Pairwise sibProp children)
      (hrec : ∀ c ∈ children, OrderedNode c) :
      OrderedNode (.folder i n children)

/-- A forest whose root list and every nested sibling list satisfy the
ordering invariant. -/
def OrderedForest (l : List TreeNode) : Prop :=
  List.Pairwise sibProp l ∧ ∀ c ∈ l, OrderedNode c

/-- Every tree that `sortDeep` returns is recursively ordered. -/
theorem ordered_sortDeep (t : TreeNode) : OrderedNode (sortDeep t) := by
  match t with
  | .doc i s =>
    rw [sortDeep_doc]
    exact OrderedNode.doc i s
  | .character i s =>
    rw [sortDeep_character]
    exact OrderedNode.character i s
  | .folder i s children =>
    rw [sortDeep_folder]
    apply OrderedNode.folder
    · exact List.Pairwise.map sortDeep (fun a b h => sibProp_sortDeep h)
        ((sortNodes_sorted children).imp sibProp_of_nodeLe)
    · intro c hc
      obtain ⟨c', hc', rfl⟩ := List.mem_map.mp hc
      exact ordered_sortDeep c'
termination_by sizeOf t
decreasing_by
  have h1 : sizeOf c' < sizeOf children := sizeOf_lt_of_mem_sortNodes hc'
  simp only [TreeNode.folder.sizeOf_spec]
  omega

/-- Any forest `buildTree` returns is ordered at the root and at every
folder's children list. -/
theorem buildTreeFuel_ordered (fuel : Nat) (fs : List Folder) (ds : List Doc)
    (cs : List Character) (forest : List TreeNode)
    (h : buildTreeFuel fuel fs ds cs = some forest) : OrderedForest forest := by
  unfold buildTreeFuel at h
  cases heq : optionList ((childrenByParent fs ROOT_KEY).map fun g =>
      makeFolderNode fs ds cs fuel g) with
  | none => rw [heq] at h; exact absurd h (by simp)
  | some roots =>
    rw [heq] at h
    simp only [Option.some.injEq] at h
    subst h
    constructor
    · exact List.Pairwise.map sortDeep (fun a b h => sibProp_sortDeep h)
        ((sortNodes_sorted _).imp sibProp_of_nodeLe)
    · intro c hc
      obtain ⟨c', _, rfl⟩ := List.mem_map.mp hc
      exact ordered_sortDeep c'

/-! ### Claims C2, C6, C7, C8, C9 -/

/-- C2 counterexample: the claim "selecting a search result also preserves
the invariant" is false. After `selectChar "c1"` the search-result click
handler `state.currentDocId = r.id` leaves `currentCharId = "c1"` while
setting `currentDocId = "d1"`, so both selection fields are non-empty. -/
theorem C2_search_select_breaks_exclusivity :
    ¬ selectionExclusive (searchSelect "d1" (selectChar "c1" ⟨"", ""⟩)) := by
  decide

/-- C2 (amended): `selectDoc` and `selectChar` each establish the
mutual-exclusion invariant (after `selectDoc x` the character selection is
empty, after `selectChar y` the document selection is empty), but the
search-result click only writes `currentDocId` and leaves `currentCharId`
untouched, so it does not preserve the invariant. -/
theorem C2_selection_exclusivity_amended :
    (∀ (s : Selection) (x : String),
      (selectDoc x s).currentCharId = "" ∧ (selectChar x s).currentDocId = "" ∧
      selectionExclusive (selectDoc x s) ∧ selectionExclusive (selectChar x s)) ∧
    (searchSelect "d1" (selectChar "c1" ⟨"", ""⟩)).currentDocId = "d1" ∧
    (searchSelect "d1" (selectChar "c1" ⟨"", ""⟩)).currentCharId = "c1" :=
  ⟨fun _ _ => ⟨rfl, rfl, Or.inr rfl, Or.inl rfl⟩, rfl, rfl⟩

/-- C6: the autosave timer period is the fixed 5000 ms; a timer fire with an
active entity flushes the entire buffer to the persistence engine and stamps
"last saved" with the current time; a fire with no active entity makes no
persistence call; and losing focus performs the same immediate flush,
independent of the timer. Stated for both the document editor and the
character editor. -/
theorem C6_autosave_flush :
    AUTOSAVE_INTERVAL_MS = 5000 ∧
    (∀ (now : Nat) (s : DocEditorState), s.currentDocId ≠ "" →
      editorTick now s =
        ({ s with lastSaved := now }, [.saveDoc s.projectPath s.currentDocId s.md])) ∧
    (∀ (now : Nat) (s : DocEditorState), s.currentDocId = "" →
      editorTick now s = (s, [])) ∧
    (∀ (now : Nat) (s : DocEditorState), editorBlur now s = editorTick now s) ∧
    (∀ (now : Nat) (s : CharEditorState), s.currentCharId ≠ "" →
      charTick true now s =
        ({ s with lastSaved := now },
          [.saveCharacter s.projectPath s.currentCharId (charPayloadOf s)])) ∧
    (∀ (now : Nat) (s : CharEditorState), s.currentCharId = "" →
      charTick true now s = (s, [])) ∧
    (∀ (now : Nat) (s : CharEditorState), charBlur now s = charTick true now s) := by
  refine ⟨rfl, ?_, ?_, ?_, ?_, ?_, ?_⟩
  · intro now s h
    simp [editorTick, h]
  · intro now s h
    simp [editorTick, h]
  · intro now s
    simp [editorBlur, editorTick]
  · intro now s h
    simp [charTick, h]
  · intro now s h
    simp [charTick, h]
  · intro now s
    by_cases h : s.currentCharId = "" <;> simp [charBlur, charTick, h]

/-- C6 witness: a concrete tick with an active document and an active
character. -/
theorem C6_autosave_flush_witness :
    editorTick 7 ⟨"p", "d1", "hello", 0⟩ =
      (⟨"p", "d1", "hello", 7⟩, [.saveDoc "p" "d1" "hello"]) ∧
    charTick true 9 ⟨"p", "c1", "30", "fr", "gay", "180", [⟨"eyes", "green"⟩], "img", 0⟩ =
      (⟨"p", "c1", "30", "fr", "gay", "180", [⟨"eyes", "green"⟩], "img", 9⟩,
        [.saveCharacter "p" "c1" ⟨"30", "fr", "gay", "180", [⟨"eyes", "green"⟩], "img"⟩]) :=
  ⟨C6_autosave_flush.2.1 7 ⟨"p", "d1", "hello", 0⟩ (by decide),
    C6_autosave_flush.2.2.2.2.1 9 ⟨"p", "c1", "30", "fr", "gay", "180",
      [⟨"eyes", "green"⟩], "img", 0⟩ (by decide)⟩

/-- C7: a cancelled prompt or a name that trims to empty makes `promptName`
return `none`, and in that case every create operation aborts: no engine
call is issued (in particular no create call) and the state — collections,
selections and expansion — is returned unchanged. -/
theorem C7_empty_prompt_aborts :
    (promptName none = none ∧
      ∀ raw : String, raw.trim = "" → promptName (some raw) = none) ∧
    (∀ (input : Option String) (snap : TreeSnapshot) (pid : Option String)
        (newId : String) (st : TreeState), promptName input = none →
      (createFolderOp input snap pid st).state = st ∧
      (createFolderOp input snap pid st).calls = [] ∧
      (createDocOp input newId snap pid st).state = st ∧
      (createDocOp input newId snap pid st).calls = [] ∧
      (createCharacterOp input newId snap pid st).state = st ∧
      (createCharacterOp input newId snap pid st).calls = []) := by
  constructor
  · exact ⟨rfl, fun raw h => by simp [promptName, h]⟩
  · intro input snap pid newId st h
    by_cases hp : st.projectPath = "" <;>
      simp [createFolderOp, createDocOp, createCharacterOp, hp, h]

/-- C7 witness: the cancelled prompt on a concrete open-project state. -/
theorem C7_empty_prompt_aborts_witness :
    (createDocOp none "n1" ⟨[], [], []⟩ none
        ⟨"p", [], [], [], "", "", [], false, none⟩).state =
      ⟨"p", [], [], [], "", "", [], false, none⟩ ∧
    (createDocOp none "n1" ⟨[], [], []⟩ none
        ⟨"p", [], [], [], "", "", [], false, none⟩).calls = [] := by
  have h := C7_empty_prompt_aborts.2 none ⟨[], [], []⟩ none "n1"
    ⟨"p", [], [], [], "", "", [], false, none⟩ rfl
  exact ⟨h.2.2.1, h.2.2.2.1⟩

/-- C8: deleting a folder is two-step. The request only records the pending
id and opens the dialog (no engine call); closing the dialog with Cancel
makes no engine call and leaves collections and selections unchanged; and
closing it with Confirm issues the recursive cascade delete followed by the
refresh, clears both selection fields unconditionally, and replaces the
collections with the refreshed snapshot. -/
theorem C8_delete_folder_confirmation :
    (∀ (fid : String) (st : TreeState),
      requestDeleteFolderOp fid st =
        ⟨{ st with pendingFolderId := some fid, confirmOpen := true }, [], []⟩) ∧
    (∀ (ok : Bool) (snap : TreeSnapshot) (st : TreeState),
      confirmCloseOp false ok snap st =
        ⟨{ st with confirmOpen := false, pendingFolderId := none }, [], []⟩) ∧
    (∀ (snap : TreeSnapshot) (st : TreeState) (fid : String),
      st.pendingFolderId = some fid → st.projectPath ≠ "" →
      confirmCloseOp true true snap st =
        ⟨{ st with
            confirmOpen := false
            pendingFolderId := none
            currentDocId := ""
            currentCharId := ""
            folders := snap.folders
            docs := snap.docs
            characters := snap.characters },
          [.deleteFolderRecursive st.projectPath fid, .listTree st.projectPath],
          []⟩) := by
  refine ⟨fun fid st => rfl, ?_, ?_⟩
  · intro ok snap st
    cases h : st.pendingFolderId <;> simp [confirmCloseOp, h]
  · intro snap st fid hpend hpp
    simp [confirmCloseOp, hpend, actuallyDeleteFolderOp, hpp, refresh]

/-- C8 witness: confirming the deletion of the pending folder `"f9"` on a
concrete state. -/
theorem C8_delete_folder_confirmation_witness :
    confirmCloseOp true true ⟨[], [], []⟩
        ⟨"p", [], [⟨"d1", "t", none⟩], [], "d1", "", [], true, some "f9"⟩ =
      ⟨⟨"p", [], [], [], "", "", [], false, none⟩,
        [.deleteFolderRecursive "p" "f9", .listTree "p"], []⟩ :=
  C8_delete_folder_confirmation.2.2 ⟨[], [], []⟩
    ⟨"p", [], [⟨"d1", "t", none⟩], [], "d1", "", [], true, some "f9"⟩ "f9" rfl
    (by decide)

/-- C9: document and character deletion have no confirmation gate. On a
successful engine delete the corresponding selection field is cleared only
when it equals the deleted id, the other selection field is untouched, and
the refresh replaces the collections; on a rejected engine delete the state
is returned unchanged, no refresh call is made, and the failure is surfaced
as a user-visible alert. -/
theorem C9_delete_doc_char :
    (∀ (snap : TreeSnapshot) (docId : String) (st : TreeState),
        st.projectPath ≠ "" →
      handleDeleteDocOp true snap docId st =
        ⟨{ refresh snap st with
            currentDocId := if st.currentDocId = docId then "" else st.currentDocId },
          [.deleteDoc st.projectPath docId, .listTree st.projectPath], []⟩ ∧
      (handleDeleteDocOp true snap docId st).state.currentCharId =
        st.currentCharId ∧
      handleDeleteDocOp false snap docId st =
        ⟨st, [.deleteDoc st.projectPath docId],
          ["Failed to delete document. See console for details."]⟩) ∧
    (∀ (snap : TreeSnapshot) (charId : String) (st : TreeState),
        st.projectPath ≠ "" →
      handleDeleteCharacterOp true snap charId st =
        ⟨{ refresh snap st with
            currentCharId := if st.currentCharId = charId then "" else st.currentCharId },
          [.deleteCharacter st.projectPath charId, .listTree st.projectPath], []⟩ ∧
      (handleDeleteCharacterOp true snap charId st).state.currentDocId =
        st.currentDocId ∧
      handleDeleteCharacterOp false snap charId st =
        ⟨st, [.deleteCharacter st.projectPath charId],
          ["Failed to delete character. See console for details."]⟩) := by
  constructor
  · intro snap docId st hpp
    by_cases hd : st.currentDocId = docId <;>
      simp [handleDeleteDocOp, refresh, hd, hpp]
  · intro snap charId st hpp
    by_cases hd : st.currentCharId = charId <;>
      simp [handleDeleteCharacterOp, refresh, hd, hpp]

/-- C9 witness: deleting the currently selected document `"d1"` succeeds and
clears only the document selection on a concrete state. -/
theorem C9_delete_doc_char_witness :
    handleDeleteDocOp true ⟨[], [], []⟩ "d1"
        ⟨"p", [], [⟨"d1", "t", none⟩], [], "d1", "", [], false, none⟩ =
      ⟨⟨"p", [], [], [], "", "", [], false, none⟩,
        [.deleteDoc "p" "d1", .listTree "p"], []⟩ :=
  (C9_delete_doc_char.1 ⟨[], [], []⟩ "d1"
    ⟨"p", [], [⟨"d1", "t", none⟩], [], "d1", "", [], false, none⟩ (by decide)).1

/-! ### Concrete evaluations and claims C1, C4, C5 -/

/-- The two root folders of the spec's ordering scenario: `f1` named "B" and
`f2` named "A". -/
def exampleFolders : List Folder := [⟨"f1", "B", none⟩, ⟨"f2", "A", none⟩]

/-- Evaluating `buildTree` on the scenario at fuel 1. -/
theorem buildTree_example_fuel1 :
    buildTreeFuel 1 exampleFolders [] [] =
      some [.folder "f2" "A" [], .folder "f1" "B" []] := by
  show some [sortDeep (.folder "f2" "A" []), sortDeep (.folder "f1" "B" [])] = _
  rw [sortDeep_folder, sortDeep_folder]
  rfl

/-- Evaluating `buildTree` on the scenario at fuel 2 gives the same forest. -/
theorem buildTree_example_fuel2 :
    buildTreeFuel 2 exampleFolders [] [] =
      some [.folder "f2" "A" [], .folder "f1" "B" []] := by
  show some [sortDeep (.folder "f2" "A" []), sortDeep (.folder "f1" "B" [])] = _
  rw [sortDeep_folder, sortDeep_folder]
  rfl

/-- C1: in every forest `buildTree` returns, every sibling list (the root
list and each folder's children) puts every folder before every non-folder
and orders same-kind siblings by ascending display name; in particular the
scenario with root folders "B" (`f1`) and "A" (`f2`) yields `f2` before
`f1`. -/
theorem C1_sibling_ordering :
    (∀ (fuel : Nat) (fs : List Folder) (ds : List Doc) (cs : List Character)
        (forest : List TreeNode),
      buildTreeFuel fuel fs ds cs = some forest → OrderedForest forest) ∧
    buildTreeFuel 1 exampleFolders [] [] =
      some [.folder "f2" "A" [], .folder "f1" "B" []] :=
  ⟨buildTreeFuel_ordered, buildTree_example_fuel1⟩

/-- C1 witness: the scenario forest is an ordered forest. -/
theorem C1_sibling_ordering_witness :
    OrderedForest [.folder "f2" "A" [], .folder "f1" "B" []] :=
  C1_sibling_ordering.1 1 exampleFolders [] [] _ buildTree_example_fuel1

/-- The cyclic pair of claim C4: folder `cycA` has `parentId = cycB.id` and
folder `cycB` has `parentId = cycA.id`. `cycA`'s id is the root sentinel
`"__ROOT__"`, so `cycB`'s bucket key is the root key: the recursion enters
the cycle from the root and never returns. (A two-folder cycle whose ids
avoid the sentinel is unreachable from the root bucket and is silently
dropped instead.) -/
def cycA : Folder := ⟨"__ROOT__", "A", some "b"⟩

/-- The second folder of the C4 cycle; see `cycA`. -/
def cycB : Folder := ⟨"b", "B", some "__ROOT__"⟩

/-- On the cyclic pair, `makeFolderNode` exhausts any finite fuel. -/
theorem makeFolderNode_cyc (fuel : Nat) :
    makeFolderNode [cycA, cycB] [] [] fuel cycA = none ∧
    makeFolderNode [cycA, cycB] [] [] fuel cycB = none := by
  induction fuel with
  | zero => exact ⟨rfl, rfl⟩
  | succ n ih =>
    obtain ⟨ihA, ihB⟩ := ih
    constructor
    · have hb : childrenByParent [cycA, cycB] cycA.id = [cycB] := rfl
      simp only [makeFolderNode, hb, List.map, ihB, optionList]
    · have hb : childrenByParent [cycA, cycB] cycB.id = [cycA] := rfl
      simp only [makeFolderNode, hb, List.map, ihA, optionList]

/-- C4: there is an input with a cyclic parent chain — folder `cycA` has
`parentId = cycB.id` and folder `cycB` has `parentId = cycA.id` — on which
`buildTree` does not terminate: it exhausts every finite recursion budget. -/
theorem C4_cyclic_chain_divergence :
    (cycA.parentId = some cycB.id ∧ cycB.parentId = some cycA.id) ∧
    ∀ fuel : Nat, buildTreeFuel fuel [cycA, cycB] [] [] = none := by
  refine ⟨⟨rfl, rfl⟩, fun fuel => ?_⟩
  have hroot : childrenByParent [cycA, cycB] ROOT_KEY = [cycB] := rfl
  have hB := (makeFolderNode_cyc fuel).2
  simp only [buildTreeFuel, hroot, List.map, hB, optionList]

/-- A list of optionals collecting to `some` is pointwise `some`. -/
theorem optionList_eq_some {l : List (Option α)} {xs : List α}
    (h : optionList l = some xs) : l = xs.map some := by
  induction l generalizing xs with
  | nil =>
    simp only [optionList, Option.some.injEq] at h
    subst h
    rfl
  | cons o rest ih =>
    cases o with
    | none => simp [optionList] at h
    | some a =>
      simp only [optionList] at h
      cases hrest : optionList rest with
      | none => rw [hrest] at h; simp at h
      | some as =>
        rw [hrest] at h
        simp only [Option.some.injEq] at h
        subst h
        simp [ih hrest]

/-- Collecting a pointwise-`some` list always succeeds. -/
theorem optionList_map_some (xs : List α) : optionList (xs.map some) = some xs := by
  induction xs with
  | nil => rfl
  | cons a as ih => simp [optionList, ih]

/-- Pointwise lifting of success along two optional-valued functions. -/
theorem map_option_lift {β γ : Type} {p q : β → Option γ}
    (hpq : ∀ b t, p b = some t → q b = some t) :
    ∀ (l : List β) (ks : List γ), l.map p = ks.map some → l.map q = ks.map some := by
  intro l
  induction l with
  | nil =>
    intro ks h
    cases ks with
    | nil => rfl
    | cons k kv => simp at h
  | cons b bs ihl =>
    intro ks h
    cases ks with
    | nil => simp at h
    | cons k kv =>
      simp only [List.map_cons, List.cons.injEq] at h ⊢
      exact ⟨hpq b k h.1, ihl kv h.2⟩

/-- More fuel never changes a successful `makeFolderNode` run. -/
theorem makeFolderNode_mono (fs : List Folder) (ds : List Doc) (cs : List Character) :
    ∀ n m : Nat, n ≤ m → ∀ (f : Folder) (t : TreeNode),
      makeFolderNode fs ds cs n f = some t → makeFolderNode fs ds cs m f = some t := by
  intro n
  induction n with
  | zero =>
    intro m _ f t h
    simp [makeFolderNode] at h
  | succ n ih =>
    intro m hm f t h
    obtain ⟨m', rfl⟩ : ∃ m', m = m' + 1 := ⟨m - 1, by omega⟩
    have hm' : n ≤ m' := by omega
    simp only [makeFolderNode] at h ⊢
    cases hl : optionList ((childrenByParent fs f.id).map fun g =>
        makeFolderNode fs ds cs n g) with
    | none => rw [hl] at h; simp at h
    | some kids =>
      rw [hl] at h
      have hmap := optionList_eq_some hl
      have hmap' := map_option_lift (fun b u hb => ih m' hm' b u hb) _ _ hmap
      rw [hmap', optionList_map_some]
      exact h

/-- More fuel never changes a successful `buildTree` run. -/
theorem buildTreeFuel_mono {fs : List Folder} {ds : List Doc} {cs : List Character}
    {n m : Nat} (hnm : n ≤ m) {t : List TreeNode}
    (h : buildTreeFuel n fs ds cs = some t) : buildTreeFuel m fs ds cs = some t := by
  simp only [buildTreeFuel] at h ⊢
  cases hl : optionList ((childrenByParent fs ROOT_KEY).map fun g =>
      makeFolderNode fs ds cs n g) with
  | none => rw [hl] at h; simp at h
  | some roots =>
    rw [hl] at h
    have hmap := optionList_eq_some hl
    have hmap' := map_option_lift
      (fun b u hb => makeFolderNode_mono fs ds cs n m hnm b u hb) _ _ hmap
    rw [hmap', optionList_map_some]
    exact h

/-- C5: `buildTree` is deterministic — any two terminating runs on the same
(folders, documents, characters) triple return the identical forest (same
node values, same order), whatever recursion budget each run had. Purity
and non-mutation of the inputs hold by construction in this embedding. -/
theorem C5_buildTree_deterministic :
    ∀ (fs : List Folder) (ds : List Doc) (cs : List Character)
      (fuel1 fuel2 : Nat) (t1 t2 : List TreeNode),
      buildTreeFuel fuel1 fs ds cs = some t1 →
      buildTreeFuel fuel2 fs ds cs = some t2 → t1 = t2 := by
  intro fs ds cs fuel1 fuel2 t1 t2 h1 h2
  rcases Nat.le_total fuel1 fuel2 with h | h
  · exact Option.some.inj ((buildTreeFuel_mono h h1).symm.trans h2)
  · exact (Option.some.inj ((buildTreeFuel_mono h h2).symm.trans h1)).symm

/-- C5 witness: two runs of different budgets on the scenario agree. -/
theorem C5_buildTree_deterministic_witness :
    ([.folder "f2" "A" [], .folder "f1" "B" []] : List TreeNode) =
      [.folder "f2" "A" [], .folder "f1" "B" []] :=
  C5_buildTree_deterministic exampleFolders [] [] 1 2 _ _
    buildTree_example_fuel1 buildTree_example_fuel2

/-! ### Claims C3 and C10: omission of unreachable entities -/

/-- Unfolding of `nodeIds` on folder nodes. -/
theorem nodeIds_folder (i n : String) (children : List TreeNode) :
    nodeIds (.folder i n children) =
      (NodeKind.folder, i) :: (children.map nodeIds).flatten := by
  simp only [nodeIds]
  congr 1
  rw [List.attach_map_coe children nodeIds]

/-- Unfolding of `nodeIds` on document leaves. -/
theorem nodeIds_doc (i t : String) : nodeIds (.doc i t) = [(NodeKind.doc, i)] := by
  simp only [nodeIds]

/-- Unfolding of `nodeIds` on character leaves. -/
theorem nodeIds_character (i n : String) :
    nodeIds (.character i n) = [(NodeKind.character, i)] := by
  simp only [nodeIds]

/-- `sortDeep` introduces no new ids. -/
theorem mem_nodeIds_sortDeep {p : NodeKind × String} :
    ∀ t : TreeNode, p ∈ nodeIds (sortDeep t) → p ∈ nodeIds t := by
  intro t
  match t with
  | .doc i s => rw [sortDeep_doc]; exact id
  | .character i s => rw [sortDeep_character]; exact id
  | .folder i s children =>
    rw [sortDeep_folder, nodeIds_folder, nodeIds_folder]
    intro hp
    rcases List.mem_cons.mp hp with hp | hp
    · exact List.mem_cons.mpr (Or.inl hp)
    · refine List.mem_cons.mpr (Or.inr ?_)
      rw [List.mem_flatten] at hp ⊢
      obtain ⟨l, hl, hpl⟩ := hp
      rw [List.map_map, List.mem_map] at hl
      obtain ⟨c, hc, rfl⟩ := hl
      have hc' : c ∈ children := mem_of_mem_sortNodes hc
      exact ⟨nodeIds c, List.mem_map.mpr ⟨c, hc', rfl⟩,
        mem_nodeIds_sortDeep c hpl⟩
termination_by t => sizeOf t
decreasing_by
  have h1 : sizeOf c < sizeOf children := List.sizeOf_lt_of_mem hc'
  simp only [TreeNode.folder.sizeOf_spec]
  omega

/-- Ids in the final sorted forest already occur in the unsorted node list. -/
theorem mem_forestIds_of_sorted {p : NodeKind × String} {l : List TreeNode}
    (h : p ∈ forestIds ((sortNodes l).map sortDeep)) : p ∈ forestIds l := by
  simp only [forestIds, List.mem_flatten, List.map_map, List.mem_map] at h ⊢
  obtain ⟨ll, ⟨c, hc, rfl⟩, hp⟩ := h
  exact ⟨nodeIds c, ⟨c, mem_of_mem_sortNodes hc, rfl⟩, mem_nodeIds_sortDeep c hp⟩

/-- Inverting a pointwise-`some` map equation at a member of the output. -/
theorem mem_of_map_eq_map_some {β γ : Type} {p : β → Option γ} :
    ∀ {l : List β} {ks : List γ}, l.map p = ks.map some →
      ∀ k ∈ ks, ∃ b ∈ l, p b = some k := by
  intro l
  induction l with
  | nil =>
    intro ks h k hk
    cases ks with
    | nil => simp at hk
    | cons k0 kv => simp at h
  | cons b bs ihl =>
    intro ks h k hk
    cases ks with
    | nil => simp at hk
    | cons k0 kv =>
      simp only [List.map_cons, List.cons.injEq] at h
      rcases List.mem_cons.mp hk with rfl | hk
      · exact ⟨b, List.mem_cons_self b bs, h.1⟩
      · obtain ⟨b', hb', hpb'⟩ := ihl h.2 k hk
        exact ⟨b', List.mem_cons_of_mem b hb', hpb'⟩

/-- Any reachable bucket key is the root key or the id of an input folder. -/
theorem reachKey_elim {fs : List Folder} {k : String} (h : ReachKey fs k) :
    k = ROOT_KEY ∨ ∃ g ∈ fs, g.id = k := by
  cases h with
  | root => exact Or.inl rfl
  | step f hf _ => exact Or.inr ⟨f, hf, rfl⟩

/-- Every `(kind, id)` in a node produced by `makeFolderNode` on a reachable
input folder comes from an input row whose own bucket key is reachable. -/
theorem makeFolderNode_ids (fs : List Folder) (ds : List Doc) (cs : List Character) :
    ∀ (fuel : Nat) (f : Folder) (node : TreeNode),
      f ∈ fs → ReachKey fs (keyOf f.parentId) →
      makeFolderNode fs ds cs fuel f = some node →
      ∀ p ∈ nodeIds node,
        (∃ g ∈ fs, p = (NodeKind.folder, g.id) ∧ ReachKey fs (keyOf g.parentId)) ∨
        (∃ d ∈ ds, p = (NodeKind.doc, d.id) ∧ ReachKey fs (keyOf d.folderId)) ∨
        (∃ c ∈ cs, p = (NodeKind.character, c.id) ∧ ReachKey fs (keyOf c.folderId)) := by
  intro fuel
  induction fuel with
  | zero =>
    intro f node _ _ h
    simp [makeFolderNode] at h
  | succ n ih =>
    intro f node hf hreach h
    simp only [makeFolderNode] at h
    cases hl : optionList ((childrenByParent fs f.id).map fun g =>
        makeFolderNode fs ds cs n g) with
    | none => rw [hl] at h; simp at h
    | some kids =>
      rw [hl] at h
      simp only [Option.some.injEq] at h
      subst h
      intro p hp
      rw [nodeIds_folder] at hp
      have hreachf : ReachKey fs f.id := ReachKey.step f hf hreach
      rcases List.mem_cons.mp hp with hp | hp
      · exact Or.inl ⟨f, hf, hp, hreach⟩
      · rw [List.mem_flatten] at hp
        obtain ⟨l, hl2, hpl⟩ := hp
        rw [List.mem_map] at hl2
        obtain ⟨c, hc, rfl⟩ := hl2
        rcases List.mem_append.mp hc with hc2 | hc2
        · rcases List.mem_append.mp hc2 with hc3 | hc3
          · -- a recursively built child folder node
            obtain ⟨g, hg, hgc⟩ :=
              mem_of_map_eq_map_some (optionList_eq_some hl) c hc3
            obtain ⟨hgfs, hgk⟩ := List.mem_filter.mp hg
            have hgk' : keyOf g.parentId = f.id := by simpa using hgk
            exact ih g c hgfs (hgk' ▸ hreachf) hgc p hpl
          · -- a document leaf of this folder
            rw [docLeaves, List.mem_map] at hc3
            obtain ⟨d, hd, rfl⟩ := hc3
            obtain ⟨hdds, hdk⟩ := List.mem_filter.mp hd
            have hdk' : keyOf d.folderId = f.id := by simpa using hdk
            rw [nodeIds_doc, List.mem_singleton] at hpl
            exact Or.inr (Or.inl ⟨d, hdds, hpl, hdk' ▸ hreachf⟩)
        · -- a character leaf of this folder
          rw [charLeaves, List.mem_map] at hc2
          obtain ⟨cc, hcc, rfl⟩ := hc2
          obtain ⟨hccs, hck⟩ := List.mem_filter.mp hcc
          have hck' : keyOf cc.folderId = f.id := by simpa using hck
          rw [nodeIds_character, List.mem_singleton] at hpl
          exact Or.inr (Or.inr ⟨cc, hccs, hpl, hck' ▸ hreachf⟩)

/-- Every `(kind, id)` occurring in a forest `buildTree` returns comes from
an input row whose bucket key is reachable from the root key. -/
theorem buildTreeFuel_ids (fuel : Nat) (fs : List Folder) (ds : List Doc)
    (cs : List Character) (forest : List TreeNode)
    (h : buildTreeFuel fuel fs ds cs = some forest) :
    ∀ p ∈ forestIds forest,
      (∃ g ∈ fs, p = (NodeKind.folder, g.id) ∧ ReachKey fs (keyOf g.parentId)) ∨
      (∃ d ∈ ds, p = (NodeKind.doc, d.id) ∧ ReachKey fs (keyOf d.folderId)) ∨
      (∃ c ∈ cs, p = (NodeKind.character, c.id) ∧ ReachKey fs (keyOf c.folderId)) := by
  simp only [buildTreeFuel] at h
  cases hl : optionList ((childrenByParent fs ROOT_KEY).map fun g =>
      makeFolderNode fs ds cs fuel g) with
  | none => rw [hl] at h; simp at h
  | some roots =>
    rw [hl] at h
    simp only [Option.some.injEq] at h
    subst h
    intro p hp
    have hp' := mem_forestIds_of_sorted hp
    simp only [forestIds, List.mem_flatten, List.mem_map] at hp'
    obtain ⟨l, ⟨c, hc, rfl⟩, hpl⟩ := hp'
    rcases List.mem_append.mp hc with hc2 | hc2
    · rcases List.mem_append.mp hc2 with hc3 | hc3
      · -- a root folder node
        obtain ⟨g, hg, hgc⟩ :=
          mem_of_map_eq_map_some (optionList_eq_some hl) c hc3
        obtain ⟨hgfs, hgk⟩ := List.mem_filter.mp hg
        have hgk' : keyOf g.parentId = ROOT_KEY := by simpa using hgk
        exact makeFolderNode_ids fs ds cs fuel g c hgfs
          (hgk' ▸ ReachKey.root) hgc p hpl
      · -- a root document leaf
        rw [docLeaves, List.mem_map] at hc3
        obtain ⟨d, hd, rfl⟩ := hc3
        obtain ⟨hdds, hdk⟩ := List.mem_filter.mp hd
        have hdk' : keyOf d.folderId = ROOT_KEY := by simpa using hdk
        rw [nodeIds_doc, List.mem_singleton] at hpl
        exact Or.inr (Or.inl ⟨d, hdds, hpl, hdk' ▸ ReachKey.root⟩)
    · -- a root character leaf
      rw [charLeaves, List.mem_map] at hc2
      obtain ⟨cc, hcc, rfl⟩ := hc2
      obtain ⟨hccs, hck⟩ := List.mem_filter.mp hcc
      have hck' : keyOf cc.folderId = ROOT_KEY := by simpa using hck
      rw [nodeIds_character, List.mem_singleton] at hpl
      exact Or.inr (Or.inr ⟨cc, hccs, hpl, hck' ▸ ReachKey.root⟩)

/-- C3 counterexample: on the input with no folders and one document whose
`folderId` is the dangling reference `"nope"`, `buildTree` returns the empty
forest — the orphaned document does not appear in the root sibling list (it
is dropped entirely), refuting "it appears in the root sibling list of the
returned forest". -/
theorem C3_orphan_not_at_root :
    buildTreeFuel 1 [] [⟨"d1", "Doc", some "nope"⟩] [] = some [] ∧
    forestIds [] = [] :=
  ⟨rfl, rfl⟩

/-- C3 (amended): an orphaned reference raises no error; an entity whose
bucket key (the dangling id, or the root key for `null`) is neither the root
key nor the id of any input folder is silently dropped from the forest —
not placed at root; and a dangling reference equal to the literal sentinel
`"__ROOT__"` collides with the root key and is treated as root-level. -/
theorem C3_orphans_amended :
    (∀ (fuel : Nat) (fs : List Folder) (ds : List Doc) (cs : List Character)
        (forest : List TreeNode), buildTreeFuel fuel fs ds cs = some forest →
      (∀ i : String, (∀ g ∈ fs, g.id = i → ¬ folderKeyed fs g) →
        (NodeKind.folder, i) ∉ forestIds forest) ∧
      (∀ i : String, (∀ d ∈ ds, d.id = i → ¬ docKeyed fs d) →
        (NodeKind.doc, i) ∉ forestIds forest) ∧
      (∀ i : String, (∀ c ∈ cs, c.id = i → ¬ charKeyed fs c) →
        (NodeKind.character, i) ∉ forestIds forest)) ∧
    buildTreeFuel 1 [] [⟨"d2", "E", some "__ROOT__"⟩] [] = some [.doc "d2" "E"] := by
  constructor
  · intro fuel fs ds cs forest h
    refine ⟨?_, ?_, ?_⟩
    · intro i hnone hmem
      rcases buildTreeFuel_ids fuel fs ds cs forest h _ hmem with
        ⟨g, hg, hpg, hrg⟩ | ⟨d, _, hpd, _⟩ | ⟨c, _, hpc, _⟩
      · refine hnone g hg ?_ ?_
        · exact (Prod.mk.injEq .. ▸ hpg).2.symm
        · rcases reachKey_elim hrg with hk | ⟨g', hg', hk⟩
          · exact Or.inl hk
          · exact Or.inr ⟨g', hg', hk.symm⟩
      · simp at hpd
      · simp at hpc
    · intro i hnone hmem
      rcases buildTreeFuel_ids fuel fs ds cs forest h _ hmem with
        ⟨g, _, hpg, _⟩ | ⟨d, hd, hpd, hrd⟩ | ⟨c, _, hpc, _⟩
      · simp at hpg
      · refine hnone d hd ?_ ?_
        · exact (Prod.mk.injEq .. ▸ hpd).2.symm
        · rcases reachKey_elim hrd with hk | ⟨g', hg', hk⟩
          · exact Or.inl hk
          · exact Or.inr ⟨g', hg', hk.symm⟩
      · simp at hpc
    · intro i hnone hmem
      rcases buildTreeFuel_ids fuel fs ds cs forest h _ hmem with
        ⟨g, _, hpg, _⟩ | ⟨d, _, hpd, _⟩ | ⟨c, hc, hpc, hrc⟩
      · simp at hpg
      · simp at hpd
      · refine hnone c hc ?_ ?_
        · exact (Prod.mk.injEq .. ▸ hpc).2.symm
        · rcases reachKey_elim hrc with hk | ⟨g', hg', hk⟩
          · exact Or.inl hk
          · exact Or.inr ⟨g', hg', hk.symm⟩
  · show some [sortDeep (.doc "d2" "E")] = _
    rw [sortDeep_doc]

/-- C3 witness: the dangling-reference document `"d1"` of the counterexample
input is absent from the returned forest. -/
theorem C3_orphans_amended_witness :
    (NodeKind.doc, "d1") ∉ forestIds [] :=
  (C3_orphans_amended.1 1 [] [⟨"d1", "Doc", some "nope"⟩] [] [] rfl).2.1 "d1"
    (by
      intro d hd _
      rw [List.mem_singleton] at hd
      subst hd
      intro hkeyed
      rcases hkeyed with hk | ⟨g, hg, _⟩
      · exact absurd hk (by decide)
      · exact absurd hg (List.not_mem_nil g))

/-- C10 counterexample: the folder `"x"` has the non-null `parentId`
`"__ROOT__"`, which is not the id of any input folder, yet it appears at the
root of the returned forest (the dangling reference collides with the
synthetic root bucket key), refuting "never appears anywhere in the output
forest". -/
theorem C10_sentinel_orphan_appears :
    buildTreeFuel 1 [⟨"x", "X", some "__ROOT__"⟩] [] [] =
      some [.folder "x" "X" []] ∧
    (NodeKind.folder, "x") ∈ forestIds [.folder "x" "X" []] := by
  constructor
  · show some [sortDeep (.folder "x" "X" [])] = _
    rw [sortDeep_folder]
    rfl
  · simp [forestIds, nodeIds_folder]

/-- C10 (amended): whenever `buildTree` returns a forest, an entity whose
bucket key is unreachable from the root key — a dangling reference other
than the sentinel `"__ROOT__"`, and every folder on a cyclic parent chain
detached from the root bucket — occurs nowhere in the forest; entities whose
dangling reference equals the sentinel collide with the root key and are
placed at root instead. -/
theorem C10_unreachable_omitted :
    ∀ (fuel : Nat) (fs : List Folder) (ds : List Doc) (cs : List Character)
      (forest : List TreeNode), buildTreeFuel fuel fs ds cs = some forest →
      (∀ i : String, (∀ g ∈ fs, g.id = i → ¬ ReachKey fs (keyOf g.parentId)) →
        (NodeKind.folder, i) ∉ forestIds forest) ∧
      (∀ i : String, (∀ d ∈ ds, d.id = i → ¬ ReachKey fs (keyOf d.folderId)) →
        (NodeKind.doc, i) ∉ forestIds forest) ∧
      (∀ i : String, (∀ c ∈ cs, c.id = i → ¬ ReachKey fs (keyOf c.folderId)) →
        (NodeKind.character, i) ∉ forestIds forest) := by
  intro fuel fs ds cs forest h
  refine ⟨?_, ?_, ?_⟩
  · intro i hnone hmem
    rcases buildTreeFuel_ids fuel fs ds cs forest h _ hmem with
      ⟨g, hg, hpg, hrg⟩ | ⟨d, _, hpd, _⟩ | ⟨c, _, hpc, _⟩
    · exact hnone g hg (Prod.mk.injEq .. ▸ hpg).2.symm hrg
    · simp at hpd
    · simp at hpc
  · intro i hnone hmem
    rcases buildTreeFuel_ids fuel fs ds cs forest h _ hmem with
      ⟨g, _, hpg, _⟩ | ⟨d, hd, hpd, hrd⟩ | ⟨c, _, hpc, _⟩
    · simp at hpg
    · exact hnone d hd (Prod.mk.injEq .. ▸ hpd).2.symm hrd
    · simp at hpc
  · intro i hnone hmem
    rcases buildTreeFuel_ids fuel fs ds cs forest h _ hmem with
      ⟨g, _, hpg, _⟩ | ⟨d, _, hpd, _⟩ | ⟨c, hc, hpc, hrc⟩
    · simp at hpg
    · simp at hpd
    · exact hnone c hc (Prod.mk.injEq .. ▸ hpc).2.symm hrc

/-- C10 witness: the dangling-reference document `"d1"` (reference `"nope"`,
no folders at all) is reachable from no bucket key and absent from the
forest. -/
theorem C10_unreachable_omitted_witness :
    (NodeKind.doc, "d1") ∉ forestIds [] :=
  (C10_unreachable_omitted 1 [] [⟨"d1", "Doc", some "nope"⟩] [] [] rfl).2.1 "d1"
    (by
      intro d hd _ hre
      rw [List.mem_singleton] at hd
      subst hd
      rcases reachKey_elim hre with hk | ⟨g, hg, _⟩
      · exact absurd hk (by decide)
      · exact absurd hg (List.not_mem_nil g))

end MingNote
